import Mathlib

/-!
Verification of the ChainDB specification against `lib/blockchain/chaindb.js`.

This file shallowly embeds the chain database of the hsd-style name-aware
UTXO blockchain node.  The key-value store is an association list from a
structured `Key` type (one constructor per key-prefix table) to a structured
`Val` type (one constructor per record codec); record encodings are modelled
as the structured values themselves, so `encode/decode` round-trips are
identities by construction.  Collaborator modules that are not part of the
source under verification (`records.js`, `coinview.js`, `undocoins.js`,
`namestate.js`, `bitfield.js`, the urkel tree and the LRU caches) are
modelled from the specification; every such definition carries a doc comment
starting with `Modelled from the spec:`.  All code translated from
`chaindb.js` follows that file's control flow line by line.
-/

namespace ChainDBSpec

/-- Hashes are 32-byte opaque identifiers; we model them as naturals with
`0` playing the role of `consensus.ZERO_HASH`. -/
abbrev Hash := Nat

/-! ## Generic association-list maps

The bdb key-value store, the coin view map, the urkel transaction delta and
the LRU cache contents are all finite maps; we model them uniformly as
association lists with functional lookup. -/

/-- Lookup in an association list (first binding wins). -/
def alGet {α β : Type} [DecidableEq α] : List (α × β) → α → Option β
  | [], _ => none
  | (k, v) :: rest, key => if k = key then some v else alGet rest key

/-- Remove every binding for `key`. -/
def alDel {α β : Type} [DecidableEq α] (l : List (α × β)) (key : α) : List (α × β) :=
  l.filter (fun p => decide (p.1 ≠ key))

/-- Insert or replace the binding for `key`. -/
def alPut {α β : Type} [DecidableEq α] (l : List (α × β)) (key : α) (v : β) : List (α × β) :=
  (key, v) :: alDel l key

theorem alGet_del {α β : Type} [DecidableEq α] (l : List (α × β)) (key k : α) :
    alGet (alDel l key) k = if key = k then none else alGet l k := by
  induction l with
  | nil => by_cases h : key = k <;> simp [alDel, alGet, h]
  | cons p rest ih =>
    rcases p with ⟨a, b⟩
    by_cases hak : a = key
    · subst hak
      have hf : alDel ((a, b) :: rest) a = alDel rest a := by
        simp [alDel, List.filter_cons]
      rw [hf, ih]
      by_cases h : a = k
      · simp [h]
      · simp [h, alGet]
    · have hf : alDel ((a, b) :: rest) key = (a, b) :: alDel rest key := by
        simp [alDel, List.filter_cons, hak]
      rw [hf]
      by_cases hk : a = k
      · subst hk
        have hne : ¬ key = a := fun hh => hak hh.symm
        simp [alGet, hne]
      · simp only [alGet, if_neg hk, ih]

theorem alGet_put {α β : Type} [DecidableEq α] (l : List (α × β)) (key k : α) (v : β) :
    alGet (alPut l key v) k = if key = k then some v else alGet l k := by
  by_cases h : key = k
  · simp [alPut, alGet, h]
  · simp [alPut, alGet, h, alGet_del]

theorem alGet_put_self {α β : Type} [DecidableEq α] (l : List (α × β)) (key : α) (v : β) :
    alGet (alPut l key v) key = some v := by simp [alGet_put]

theorem alGet_del_self {α β : Type} [DecidableEq α] (l : List (α × β)) (key : α) :
    alGet (alDel l key) key = none := by simp [alGet_del]

/-! ## Covenants, outputs, transactions, blocks -/

/-- Covenant type tags, in the enumerated order of `covenants/rules.js`
(spec section 3): `NONE, CLAIM, OPEN, BID, REVEAL, REDEEM, REGISTER, UPDATE,
RENEW, TRANSFER, FINALIZE, REVOKE`. -/
inductive CovType
  | NONE | CLAIM | OPEN | BID | REVEAL | REDEEM
  | REGISTER | UPDATE | RENEW | TRANSFER | FINALIZE | REVOKE
deriving DecidableEq, Repr

/-- Numeric code of a covenant type (its position in the enumeration). -/
def CovType.code : CovType → Nat
  | .NONE => 0
  | .CLAIM => 1
  | .OPEN => 2
  | .BID => 3
  | .REVEAL => 4
  | .REDEEM => 5
  | .REGISTER => 6
  | .UPDATE => 7
  | .RENEW => 8
  | .TRANSFER => 9
  | .FINALIZE => 10
  | .REVOKE => 11

/-- The `REGISTER..=REVOKE` "locked" range test used throughout
`connectBlock`/`disconnectBlock`
(`output.covenant.type >= types.REGISTER && output.covenant.type <= types.REVOKE`). -/
def covLocked (t : CovType) : Bool :=
  CovType.code CovType.REGISTER ≤ t.code && t.code ≤ CovType.code CovType.REVOKE

/-- Modelled from the spec: a covenant is a tagged operation on an output.
`u32at5` is the u32 item at index 5 (the claim sequence read by
`covenant.getU32(5)`); `bitPos` is the claim's position in the claim/
allocation `BitField` (spec section 3, "BitField — packed bit vector of
claim/allocation flags"). -/
structure Covenant where
  ctype : CovType
  u32at5 : Nat := 0
  bitPos : Nat := 0
deriving DecidableEq, Repr

def Covenant.isRegister (c : Covenant) : Bool := c.ctype = CovType.REGISTER

def Covenant.isClaim (c : Covenant) : Bool := c.ctype = CovType.CLAIM

/-- Modelled from the spec: a transaction output with a covenant.
`unspendable` stands for `output.isUnspendable()`; `addr` is the optional
address hash used by the address index (`output.getHash()`). -/
structure Output where
  value : Int
  covenant : Covenant
  unspendable : Bool := false
  addr : Option Nat := none
deriving DecidableEq, Repr

/-- An outpoint `(txid, index)`. -/
structure Outpoint where
  hash : Hash
  index : Nat
deriving DecidableEq, Repr

/-- Modelled from the spec: a transaction (`txid`, inputs referenced by
outpoint, outputs).  `cb` stands for `tx.isCoinbase()`. -/
structure TX where
  txid : Hash
  inputs : List Outpoint
  outputs : List Output
  cb : Bool := false
deriving DecidableEq, Repr

/-- A block: its hash and transaction list (transaction 0 is the coinbase). -/
structure Block where
  bhash : Hash
  txs : List TX
deriving DecidableEq, Repr

/-- A chain entry: header data relevant to ChainDB. -/
structure Entry where
  hash : Hash
  height : Nat
  prevBlock : Hash
  treeRoot : Hash
deriving DecidableEq, Repr

/-- `ChainEntry.isGenesis()`: the entry at height 0. -/
def Entry.isGenesis (e : Entry) : Bool := e.height = 0

/-- Modelled from the spec: `CoinEntry` — the spendable form of an output
plus the height it was created at. -/
structure CoinEntry where
  output : Output
  height : Nat
deriving DecidableEq, Repr

/-! ## Records modelled from the spec (`records.js` is not under `src/`) -/

/-- Modelled from the spec: `ChainState` — aggregate `tip` hash, cumulative
`tx`, `coin`, `value`, `burned` counters and an in-memory `committed` flag
(spec section 3).  Counters are integers (JavaScript numbers). -/
structure ChainState where
  tip : Hash := 0
  tx : Int := 0
  coin : Int := 0
  value : Int := 0
  burned : Int := 0
  committed : Bool := false
deriving DecidableEq, Repr

/-- Modelled from the spec: cloning a `ChainState` at batch start copies the
tip and counters; the clone is not yet committed. -/
def ChainState.clone (s : ChainState) : ChainState := { s with committed := false }

/-- Modelled from the spec: `pending.disconnect(block)` reverses
`connect`. -/
def ChainState.disconnect (s : ChainState) (b : Block) : ChainState :=
  { s with tx := s.tx - b.txs.length }

/-- Modelled from the spec: `pending.add(output)` counts an unspent coin into
the `coin` and `value` counters. -/
def ChainState.add (s : ChainState) (o : Output) : ChainState :=
  { s with coin := s.coin + 1, value := s.value + o.value }

/-- Modelled from the spec: `pending.spend(output)` reverses `add`. -/
def ChainState.spend (s : ChainState) (o : Output) : ChainState :=
  { s with coin := s.coin - 1, value := s.value - o.value }

/-- Modelled from the spec: `pending.burn(output)` counts a REGISTER output
into `coin` and `burned` (spec section 3: "`burned` counter equals the sum of
first-`REGISTER` output values ever seen minus those reverted"). -/
def ChainState.burn (s : ChainState) (o : Output) : ChainState :=
  { s with coin := s.coin + 1, burned := s.burned + o.value }

/-- Modelled from the spec: `pending.unburn(output)` reverses `burn`. -/
def ChainState.unburn (s : ChainState) (o : Output) : ChainState :=
  { s with coin := s.coin - 1, burned := s.burned - o.value }

/-- Modelled from the spec: `pending.commit(hash)` sets the tip, marks the
state committed and returns its serialization (the serialization excludes the
in-memory `committed` flag). -/
def ChainState.commitTip (s : ChainState) (h : Hash) : ChainState :=
  { s with tip := h, committed := true }

/-- Modelled from the spec: `TreeState` — `treeRoot`, `commitHeight`,
compaction data and an in-memory `committed` flag (spec section 3). -/
structure TreeStateRec where
  treeRoot : Hash := 0
  commitHeight : Nat := 0
  compactionRoot : Hash := 0
  compactionHeight : Nat := 0
  committed : Bool := false
deriving DecidableEq, Repr

/-- Modelled from the spec: cloning a `TreeState` copies the persistent
fields; the clone is not yet committed. -/
def TreeStateRec.clone (s : TreeStateRec) : TreeStateRec := { s with committed := false }

/-- Modelled from the spec: `treeState.commit(root, height)` records a new
committed root/height pair and marks the record committed. -/
def TreeStateRec.commitRoot (s : TreeStateRec) (root : Hash) (height : Nat) : TreeStateRec :=
  { s with treeRoot := root, commitHeight := height, committed := true }

/-- Modelled from the spec: `treeState.compact(root, height)` records the
compaction anchor. -/
def TreeStateRec.compact (s : TreeStateRec) (root : Hash) (height : Nat) : TreeStateRec :=
  { s with compactionRoot := root, compactionHeight := height }

/-- A soft-fork deployment row of the `D` table: `{bit, startTime, timeout,
threshold, window}` (spec section 6). -/
structure Deployment where
  bit : Nat
  startTime : Nat
  timeout : Nat
  threshold : Int
  window : Int
deriving DecidableEq, Repr

/-- Modelled from the spec: `ChainFlags` — persisted options (spec
section 3). -/
structure ChainFlagsRec where
  spv : Bool := false
  prune : Bool := false
  indexTX : Bool := false
  indexAddress : Bool := false
deriving DecidableEq, Repr

/-! ## Key-value layout

One constructor per key-prefix table of `layout.js` (spec section 6). -/

inductive Key
  | V | O | R | s | D | f
  | h (hash : Hash)
  | H (height : Nat)
  | e (hash : Hash)
  | n (hash : Hash)
  | p (hash : Hash)
  | c (hash : Hash) (index : Nat)
  | v (bit : Nat) (hash : Hash)
  | w (height : Nat)
  | t (hash : Hash)
  | T (addr : Nat) (hash : Hash)
  | C (addr : Nat) (hash : Hash) (index : Nat)
deriving DecidableEq, Repr

/-- Structured record values.  Each constructor stands for the byte encoding
of the corresponding codec; `rawV` stands for bytes that do not decode under
the codec expected at their key (used to model encoding errors). -/
inductive Val
  | u32 (x : Nat)
  | hsh (x : Hash)
  | entryV (en : Entry)
  | emptyV
  | chainSt (tip : Hash) (tx coin value burned : Int)
  | treeSt (root : Hash) (commitHeight : Nat) (compactionRoot : Hash) (compactionHeight : Nat)
  | coinV (ce : CoinEntry)
  | fieldV (bits : List Bool)
  | nameUndoV (undo : List (Hash × Option Nat))
  | deployV (tbl : List Deployment)
  | bitV (st : Nat)
  | flagsV (fl : ChainFlagsRec)
  | versionV (nm : String) (ver : Nat)
  | metaV (tx : TX) (height : Nat) (index : Nat)
  | rawV (bytes : Nat)
deriving DecidableEq, Repr

/-- The key-value store. -/
abbrev KV := List (Key × Val)

/-- `ChainState.encode()` as stored under `R`. -/
def ChainState.enc (s : ChainState) : Val :=
  Val.chainSt s.tip s.tx s.coin s.value s.burned

/-- `TreeState.encode()` as stored under `s`. -/
def TreeStateRec.enc (s : TreeStateRec) : Val :=
  Val.treeSt s.treeRoot s.commitHeight s.compactionRoot s.compactionHeight

/-- `ChainFlags.encode()` as stored under `O`. -/
def ChainFlagsRec.enc (fl : ChainFlagsRec) : Val := Val.flagsV fl

/-! ## Network and options -/

/-- Network parameters used by ChainDB: `names.treeInterval`,
`block.keepBlocks`, `block.pruneAfterHeight`, the deployment table and the
genesis hash. -/
structure Network where
  treeInterval : Nat := 5
  keepBlocks : Nat := 288
  pruneAfterHeight : Nat := 1000
  deploys : List Deployment := []
  genesisHash : Hash := 1
deriving Repr

/-- `network.byBit(bit)`: the first deployment with the given bit. -/
def Network.byBit (net : Network) (bit : Nat) : Option Deployment :=
  net.deploys.find? (fun d => d.bit = bit)

/-- Chain options relevant to ChainDB (`ChainFlags` fields plus whether a
blob store is attached, standing for `this.blocks`). -/
structure ChainOptions where
  spv : Bool := false
  prune : Bool := false
  indexTX : Bool := false
  indexAddress : Bool := false
  hasBlocks : Bool := true
deriving DecidableEq, Repr

/-- `ChainFlags.fromOptions(options)`. -/
def ChainOptions.toFlags (o : ChainOptions) : ChainFlagsRec :=
  { spv := o.spv, prune := o.prune, indexTX := o.indexTX, indexAddress := o.indexAddress }

/-! ## LRU caches and the StateCache -/

/-- Modelled from the spec: an LRU cache with batch-scoped staging
(spec section 9, "Staged caches"): `data` holds committed entries, `staged`
holds the operations queued since `start()` (newest first; `some v` for
`push`, `none` for `unpush`). -/
structure LRUCache (κ ν : Type) where
  data : List (κ × ν) := []
  staged : List (κ × Option ν) := []
deriving DecidableEq, Repr

namespace LRUCache

variable {κ ν : Type} [DecidableEq κ]

/-- Modelled from the spec: begin staging. -/
def start (c : LRUCache κ ν) : LRUCache κ ν := { c with staged := [] }

/-- Modelled from the spec: stage a removal. -/
def unpush (c : LRUCache κ ν) (k : κ) : LRUCache κ ν :=
  { c with staged := (k, none) :: c.staged }

/-- Modelled from the spec: in-batch reads see staged entries first. -/
def get (c : LRUCache κ ν) (k : κ) : Option ν :=
  match alGet c.staged k with
  | some r => r
  | none => alGet c.data k

/-- Modelled from the spec: drop rolls the staged operations back. -/
def drop (c : LRUCache κ ν) : LRUCache κ ν := { c with staged := [] }

/-- Modelled from the spec: commit promotes the staged operations (oldest
first) into the committed entries. -/
def commit (c : LRUCache κ ν) : LRUCache κ ν :=
  { data := c.staged.reverse.foldl
      (fun d op => match op.2 with
        | some x => alPut d op.1 x
        | none => alDel d op.1) c.data,
    staged := [] }

/-- Unstaged insertion (`lru.set`, used by reads outside a batch). -/
def setDirect (c : LRUCache κ ν) (k : κ) (x : ν) : LRUCache κ ν :=
  { c with data := alPut c.data k x }

/-- Unstaged removal (`lru.remove`, used by `reset` after a commit). -/
def removeDirect (c : LRUCache κ ν) (k : κ) : LRUCache κ ν :=
  { c with data := alDel c.data k }

end LRUCache

/-- A versionbit state cache entry/update `(bit, hash) -> state`. -/
structure VBUpdate where
  bit : Nat
  hash : Hash
  stateV : Nat
deriving DecidableEq, Repr

/-- Modelled from the spec: the `StateCache` accumulates `updates` during a
batch and exposes `commit` (promote: the queue is flushed) and `drop`
(rollback: queued entries are removed again) (spec sections 3 and 9). -/
structure StateCache where
  cache : List VBUpdate := []
  updates : List VBUpdate := []
deriving DecidableEq, Repr

/-- Modelled from the spec: `stateCache.set` makes the entry visible
immediately and queues it for the next batch commit. -/
def StateCache.set (sc : StateCache) (u : VBUpdate) : StateCache :=
  { cache := u :: sc.cache, updates := u :: sc.updates }

/-- Modelled from the spec: promote the queued updates. -/
def StateCache.commit (sc : StateCache) : StateCache := { sc with updates := [] }

/-- Modelled from the spec: roll the queued updates back. -/
def StateCache.drop (sc : StateCache) : StateCache :=
  { cache := sc.cache.filter (fun u => decide (u ∉ sc.updates)), updates := [] }

/-- Modelled from the spec: `stateCache.insert` loads a committed entry at
open time. -/
def StateCache.insert (sc : StateCache) (u : VBUpdate) : StateCache :=
  { sc with cache := u :: sc.cache }

/-! ## The ChainDB state

The committed world: key-value store, blob store (raw blocks and undo
records, spec section 6), in-memory `state`/`treeState`/bitfield,
the urkel tree (committed content plus the long-lived transaction delta
`txn`), the state cache and the two entry LRU caches.  A key-value batch is
modelled separately (`Batch`) and only folded in by `commit`. -/

structure ChainDB where
  opts : ChainOptions := {}
  net : Network := {}
  kv : KV := []
  blobBlocks : List (Hash × Block) := []
  blobUndo : List (Hash × List CoinEntry) := []
  state : ChainState := {}
  treeState : TreeStateRec := {}
  field : List Bool := []
  treeRoot : Hash := 0
  treeData : List (Hash × Nat) := []
  txnOps : List (Hash × Option Nat) := []
  stateCache : StateCache := {}
  cacheHash : LRUCache Hash Entry := {}
  cacheHeight : LRUCache Nat Entry := {}
deriving Repr

/-! ## Tree transaction reads

Modelled from the spec: the urkel `txn` answers `get` from its pending delta
first, falling back to the committed tree content. -/

/-- `this.txn.get(nameHash)`. -/
def ChainDB.txnGet (db : ChainDB) (nh : Hash) : Option Nat :=
  match alGet db.txnOps nh with
  | some r => r
  | none => alGet db.treeData nh

/-! ## Name states (`covenants/namestate.js` is not under `src/`) -/

/-- Modelled from the spec: a per-name authenticated record.  Only the
fields ChainDB itself manipulates are modelled: the owning `nameHash`, an
opaque payload `data` standing for the remaining fields, the height the
record was last reset at, and an expiry height (0 meaning none). -/
structure NameState where
  nameHash : Hash := 0
  data : Nat := 0
  resetHeight : Nat := 0
  expiry : Nat := 0
deriving DecidableEq, Repr

/-- Modelled from the spec: `NameState.decode(raw)`; the payload is kept
opaque and the expiry is recovered from it. -/
def NameState.decode (raw : Nat) : NameState :=
  { nameHash := 0, data := raw, resetHeight := 0, expiry := raw % 2 }

/-- Modelled from the spec: `ns.reset(height)` re-initializes the record at
the given height. -/
def NameState.reset (ns : NameState) (height : Nat) : NameState :=
  { ns with data := 0, resetHeight := height, expiry := 0 }

/-- Modelled from the spec: `ns.maybeExpire(height, network)` applies
expiration for the given height, resetting the record if it has expired. -/
def NameState.maybeExpire (ns : NameState) (height : Nat) : NameState :=
  if 0 < ns.expiry && ns.expiry ≤ height then ns.reset height else ns

/-- `getNameState(nameHash)` (`chaindb.js`): read the raw record from the
tree transaction; `null` when absent, otherwise the decoded state with its
`nameHash` field set. -/
def ChainDB.getNameState (db : ChainDB) (nh : Hash) : Option NameState :=
  match db.txnGet nh with
  | none => none
  | some raw => some { NameState.decode raw with nameHash := nh }

/-- `getNameStatus(nameHash, height)` (`chaindb.js`): a fresh reset state
when no record exists, otherwise the decoded state after `maybeExpire`.
The JavaScript return value is nullable, which the `Option` models. -/
def ChainDB.getNameStatus (db : ChainDB) (nh : Hash) (height : Nat) : Option NameState :=
  match db.getNameState nh with
  | none => some (NameState.reset {} height)
  | some ns => some (ns.maybeExpire height)

/-! ## Entry and hash reads -/

/-- `getHeight(hash)` (`chaindb.js`): `-1` (here `none`) for the zero hash
or a missing record; the hash cache is consulted first. -/
def ChainDB.getHeightOf (db : ChainDB) (hash : Hash) : Option Nat :=
  if hash = 0 then none
  else match db.cacheHash.get hash with
  | some en => some en.height
  | none =>
    match alGet db.kv (Key.h hash) with
    | some (Val.u32 ht) => some ht
    | _ => none

/-- `getHash(height)` (`chaindb.js`): main-chain hash by height; the height
cache is consulted first. -/
def ChainDB.getHashOf (db : ChainDB) (height : Nat) : Option Hash :=
  match db.cacheHeight.get height with
  | some en => some en.hash
  | none =>
    match alGet db.kv (Key.H height) with
    | some (Val.hsh hs) => some hs
    | _ => none

/-- `getEntryByHash(hash)` (`chaindb.js`).  The non-durable insertion of the
decoded entry into the hash cache is omitted from the model. -/
def ChainDB.getEntryByHash (db : ChainDB) (hash : Hash) : Option Entry :=
  if hash = 0 then none
  else match db.cacheHash.get hash with
  | some en => some en
  | none =>
    match alGet db.kv (Key.e hash) with
    | some (Val.entryV en) => some en
    | _ => none

/-- `getEntryByHeight(height)` (`chaindb.js`).  The non-durable,
reorg-guarded height-cache insertion is omitted from the model. -/
def ChainDB.getEntryByHeight (db : ChainDB) (height : Nat) : Option Entry :=
  match db.cacheHeight.get height with
  | some en => some en
  | none =>
    match alGet db.kv (Key.H height) with
    | some (Val.hsh hs) => db.getEntryByHash hs
    | _ => none

/-- `getEntry(block)` (`chaindb.js`): dispatch on hash vs. height. -/
def ChainDB.getEntry (db : ChainDB) : Hash ⊕ Nat → Option Entry
  | Sum.inl hash => db.getEntryByHash hash
  | Sum.inr height => db.getEntryByHeight height

/-- `getNextHash(hash)` (`chaindb.js`): the `n` record. -/
def ChainDB.getNextHash (db : ChainDB) (hash : Hash) : Option Hash :=
  match alGet db.kv (Key.n hash) with
  | some (Val.hsh hs) => some hs
  | _ => none

/-- `getNext(entry)` (`chaindb.js`). -/
def ChainDB.getNext (db : ChainDB) (en : Entry) : Option Entry :=
  match db.getNextHash en.hash with
  | none => none
  | some hs => db.getEntryByHash hs

/-- `getPrevious(entry)` (`chaindb.js`). -/
def ChainDB.getPrevious (db : ChainDB) (en : Entry) : Option Entry :=
  db.getEntryByHash en.prevBlock

/-- `isMainChain(entry)` (`chaindb.js`): genesis, tip equality, height-cache
match, then the `n` probe. -/
def ChainDB.isMainChain (db : ChainDB) (en : Entry) : Bool :=
  if en.isGenesis then true
  else if en.hash = db.state.tip then true
  else match db.cacheHeight.get en.height with
  | some cache => en.hash = cache.hash
  | none => (db.getNextHash en.hash).isSome

/-- `getTip()` (`chaindb.js`). -/
def ChainDB.getTip (db : ChainDB) : Option Entry :=
  db.getEntryByHash db.state.tip

/-- `getTips()` (`chaindb.js`): every hash with a `p` record. -/
def ChainDB.getTips (db : ChainDB) : List Hash :=
  db.kv.filterMap (fun kvp =>
    match kvp.1 with
    | Key.p hs => some hs
    | _ => none)

/-- `getFlags()` (`chaindb.js`): the decoded `O` record. -/
def ChainDB.getFlags (db : ChainDB) : Option ChainFlagsRec :=
  match alGet db.kv Key.O with
  | some (Val.flagsV fl) => some fl
  | _ => none

/-- `getField()` (`chaindb.js`): the decoded `f` record, or a fresh
bitfield. -/
def ChainDB.getField (db : ChainDB) : List Bool :=
  match alGet db.kv Key.f with
  | some (Val.fieldV bits) => bits
  | _ => []

/-- `getUndoCoins(hash)` (`chaindb.js`): the undo blob, or an empty list.
The list is the undo stack, most recently pushed coin first. -/
def ChainDB.getUndoCoins (db : ChainDB) (hash : Hash) : List CoinEntry :=
  match alGet db.blobUndo hash with
  | none => []
  | some items => items

/-- `readCoin(prevout)` (`chaindb.js`): `null` in SPV mode, else the decoded
`c` record. -/
def ChainDB.readCoin (db : ChainDB) (op : Outpoint) : Option CoinEntry :=
  if db.opts.spv then none
  else match alGet db.kv (Key.c op.hash op.index) with
  | some (Val.coinV ce) => some ce
  | _ => none

/-! ## Deployment table verification -/

/-- Error classes surfaced by ChainDB reads: an encoding error (carrying
`e.type === 'EncodingError'`), an assertion failure, or a plain error. -/
inductive DbErr
  | encodingErr
  | assertErr (msg : String)
  | err (msg : String)
deriving DecidableEq, Repr

/-- `checkDeployments()` (`chaindb.js`): decode the `D` table (a missing
table is an assertion failure, undecodable bytes an encoding error) and
collect every bit whose stored parameters differ from the network's. -/
def checkDeployments (net : Network) (kv : KV) : Except DbErr (List Nat) :=
  match alGet kv Key.D with
  | none => Except.error (DbErr.assertErr "No deployment table found.")
  | some (Val.deployV tbl) =>
    Except.ok (tbl.filterMap (fun row =>
      match net.byBit row.bit with
      | some dep =>
        if row.startTime = dep.startTime && row.timeout = dep.timeout
            && row.threshold = dep.threshold && row.window = dep.window
        then none
        else some row.bit
      | none => some row.bit))
  | some _ => Except.error DbErr.encodingErr

/-- `invalidateCache(bit, b)` (`chaindb.js`): delete every `v(bit, *)`
record. -/
def invalidateCache (kv : KV) (bit : Nat) : KV :=
  kv.filter (fun kvp =>
    match kvp.1 with
    | Key.v b _ => decide (b ≠ bit)
    | _ => true)

/-- `writeDeployments(b)` (`chaindb.js`): rewrite the `D` table from the
network's deployment list. -/
def writeDeployments (net : Network) (kv : KV) : KV :=
  alPut kv Key.D (Val.deployV net.deploys)

/-- `verifyDeployments()` (`chaindb.js`): an encoding error makes all 32
bits invalid; invalid bits have their version-bit cache entries deleted and
the table is rewritten, returning `false`. -/
def verifyDeployments (net : Network) (kv : KV) : Except DbErr (Bool × KV) :=
  match
    (match checkDeployments net kv with
     | Except.ok l => Except.ok l
     | Except.error DbErr.encodingErr => Except.ok (List.range 32)
     | Except.error ex => Except.error ex) with
  | Except.error ex => Except.error ex
  | Except.ok invalid =>
    if invalid.isEmpty then Except.ok (true, kv)
    else
      let kv1 := invalid.foldl (fun acc bit => invalidateCache acc bit) kv
      let kv2 := writeDeployments net kv1
      Except.ok (false, kv2)

/-! ## Retroactive pruning -/

/-- The height range `[start, end]` as a list (empty when `end < start`). -/
def heightRange (startH endH : Nat) : List Nat :=
  (List.range (endH + 1 - startH)).map (fun j => startH + j)

/-- Collect the main-chain hash for every height of a list, failing like
the `prune()` loop does at the first missing one. -/
def collectHashesL (db : ChainDB) : List Nat → Except String (List Hash)
  | [] => Except.ok []
  | i :: rest =>
    match db.getHashOf i with
    | none => Except.error "Cannot find hash."
    | some hs =>
      match collectHashesL db rest with
      | Except.error ex => Except.error ex
      | Except.ok tl => Except.ok (hs :: tl)

/-- Collect the main-chain hash for every height in `[start, end]`. -/
def collectHashes (db : ChainDB) (startH endH : Nat) : Except String (List Hash) :=
  collectHashesL db (heightRange startH endH)

/-- `prune()` (`chaindb.js`): refuse in SPV mode or when already pruned;
return `false` when `tip.height <= pruneAfterHeight + keepBlocks`; otherwise
delete the block and undo blobs for `[pruneAfterHeight + 1, tip.height -
keepBlocks]` and then persist the `prune` flag under `O`. -/
def ChainDB.prune (db : ChainDB) : Except String (Bool × ChainDB) :=
  if db.opts.spv then Except.error "Cannot prune chain in SPV mode."
  else match db.getFlags with
  | none => Except.error "No flags found."
  | some fl =>
    if fl.prune then Except.error "Chain is already pruned."
    else
      match db.getHeightOf db.state.tip with
      | none => Except.ok (false, db)
      | some height =>
        if height ≤ db.net.pruneAfterHeight + db.net.keepBlocks then Except.ok (false, db)
        else
          let startH := db.net.pruneAfterHeight + 1
          let endH := height - db.net.keepBlocks
          match collectHashes db startH endH with
          | Except.error ex => Except.error ex
          | Except.ok hashes =>
            let blobBlocks1 := hashes.foldl (fun acc hs => alDel acc hs) db.blobBlocks
            let blobUndo1 := hashes.foldl (fun acc hs => alDel acc hs) db.blobUndo
            let opts1 := { db.opts with prune := true }
            Except.ok (true,
              { db with
                blobBlocks := blobBlocks1,
                blobUndo := blobUndo1,
                opts := opts1,
                kv := alPut db.kv Key.O (Val.flagsV opts1.toFlags) })

/-! ## Per-output and per-input chain-state accounting -/

/-- The output half of the `connectBlock` accounting loop (`chaindb.js`
lines 2246-2269): skip unspendable outputs; burn REGISTER outputs; skip the
locked `REGISTER..=REVOKE` range; for CLAIM outputs add value only when the
claim sequence (covenant u32 at index 5) is 1; otherwise add. -/
def connectOutput (st : ChainState) (o : Output) : ChainState :=
  if o.unspendable then st
  else
    let st1 := if o.covenant.isRegister then st.burn o else st
    if covLocked o.covenant.ctype then st1
    else if o.covenant.isClaim && decide (o.covenant.u32at5 ≠ 1) then st1
    else st1.add o

/-- The output half of the `disconnectBlock` accounting loop (`chaindb.js`
lines 2335-2358), mirroring `connectOutput`. -/
def disconnectOutput (st : ChainState) (o : Output) : ChainState :=
  if o.unspendable then st
  else
    let st1 := if o.covenant.isRegister then st.unburn o else st
    if covLocked o.covenant.ctype then st1
    else if o.covenant.isClaim && decide (o.covenant.u32at5 ≠ 1) then st1
    else st1.spend o

/-- The input half of the `disconnectBlock` accounting loop: add the undone
output back unless its covenant is in the locked range. -/
def disconnectInput (st : ChainState) (o : Output) : ChainState :=
  if covLocked o.covenant.ctype then st else st.add o

/-! ## Coin views (`coins/coinview.js` and `coins/undocoins.js` are not
under `src/`) -/

/-- A coin inside a view, with its `spent` flag. -/
structure CoinRec where
  coin : CoinEntry
  spent : Bool
deriving DecidableEq, Repr

/-- Modelled from the spec: a `CoinView` working set — outpoint map with
spent flags, the `UndoCoins` log (a stack, most recently pushed coin first),
the name-state map (`none` models `ns.isNull()`), the name-undo deltas the
view yields through `toNameUndo()`, and the bitfield delta. -/
structure CoinView where
  coins : List (Outpoint × CoinRec) := []
  undo : List CoinEntry := []
  names : List (Hash × Option Nat) := []
  nameUndo : List (Hash × Option Nat) := []
  bits : List (Nat × Bool) := []
deriving DecidableEq, Repr

/-- `view.getOutput(prevout)`: the output of the entry at the outpoint,
spent or not. -/
def CoinView.getOutput (v : CoinView) (op : Outpoint) : Option Output :=
  (alGet v.coins op).map (fun r => r.coin.output)

/-- `undo.apply(view, prevout)` target: re-insert the undone coin as
unspent. -/
def CoinView.addEntry (v : CoinView) (op : Outpoint) (ce : CoinEntry) : CoinView :=
  { v with coins := alPut v.coins op { coin := ce, spent := false } }

/-- Index a list from a starting position (the loops `for (let i = 0; ...)`
over transactions and outputs). -/
def enumL {α : Type} : Nat → List α → List (Nat × α)
  | _, [] => []
  | i, x :: rest => (i, x) :: enumL (i + 1) rest

/-- Modelled from the spec: `view.removeTX(tx, height)` removes the coins a
transaction created by marking every spendable output spent. -/
def CoinView.removeTX (v : CoinView) (tx : TX) (height : Nat) : CoinView :=
  { v with coins := (enumL 0 tx.outputs).foldl (fun acc pr =>
      if pr.2.unspendable then acc
      else alPut acc ⟨tx.txid, pr.1⟩ { coin := ⟨pr.2, height⟩, spent := true }) v.coins }

/-- Modelled from the spec: `view.bits.undo(tx)` — clear the claim bit of
every CLAIM covenant in the transaction. -/
def bitsUndo (tx : TX) : List (Nat × Bool) :=
  (tx.outputs.filter (fun o => o.covenant.isClaim)).map (fun o => (o.covenant.bitPos, false))

/-- Modelled from the spec: applying a bitfield delta (positions out of
range are ignored, the field being fixed-size). -/
def bitsApply (bits : List (Nat × Bool)) (fld : List Bool) : List Bool :=
  bits.foldl (fun acc pb => acc.set pb.1 pb.2) fld

/-! ## The batch coordinator -/

/-- The state of an open batch: the pending key-value view (applied
atomically on commit), the cloned `pending`/`pendingTreeState` records and
the queued blob writes and prunes. -/
structure Batch where
  kvP : KV
  pending : ChainState
  pendingTree : TreeStateRec
  blobBW : List (Hash × Block) := []
  blobUW : List (Hash × List CoinEntry) := []
  blobPB : List Hash := []
  blobPU : List Hash := []
deriving Repr

/-- A session: the database (whose in-memory members — bitfield, tree,
caches, state cache — are mutated in place during a batch, exactly as in
the JavaScript) together with the open batch. -/
structure Sess where
  db : ChainDB
  bt : Batch
deriving Repr

/-- `start()` (`chaindb.js`): allocate a batch, clone `state` and
`treeState`, open the blob batch and begin staging in the LRU caches. -/
def ChainDB.startSess (db : ChainDB) : Sess :=
  { db := { db with cacheHash := db.cacheHash.start, cacheHeight := db.cacheHeight.start },
    bt := { kvP := db.kv, pending := db.state.clone, pendingTree := db.treeState.clone } }

/-- `this.put(key, value)` on the current batch. -/
def Sess.put (s : Sess) (k : Key) (v : Val) : Sess :=
  { s with bt := { s.bt with kvP := alPut s.bt.kvP k v } }

/-- `this.del(key)` on the current batch. -/
def Sess.del (s : Sess) (k : Key) : Sess :=
  { s with bt := { s.bt with kvP := alDel s.bt.kvP k } }

/-- Replace the pending chain state. -/
def Sess.setPending (s : Sess) (st : ChainState) : Sess :=
  { s with bt := { s.bt with pending := st } }

/-- `drop()` (`chaindb.js`): discard the batch and blob batch, drop the
staged LRU entries and the staged state-cache updates.  (The in-place
mutations of the bitfield and tree transaction are not rolled back,
faithfully to the source.) -/
def Sess.dropSess (s : Sess) : ChainDB :=
  { s.db with
    cacheHash := s.db.cacheHash.drop,
    cacheHeight := s.db.cacheHeight.drop,
    stateCache := s.db.stateCache.drop }

/-- Commit-ordering events observable during `commit()`. -/
inductive CEv
  | blobWrites | kvWrite | stateSwap | treeStateSwap
  | lruPromote | stateCachePromote | blobPrunes
deriving DecidableEq, Repr

/-- The outcome of `commit()`: the database after the call (mutations made
before a throw survive, as they do on the JavaScript object), the ordered
effect trace, and the propagated exception if any. -/
structure CommitRes where
  db : ChainDB
  trace : List CEv
  err : Option String
deriving Repr

/-- Apply queued blob writes. -/
def applyBlobWrites {β : Type} (blob : List (Hash × β)) (ws : List (Hash × β)) :
    List (Hash × β) :=
  ws.foldl (fun acc pr => alPut acc pr.1 pr.2) blob

/-- Apply queued blob prunes. -/
def applyBlobPrunes {β : Type} (blob : List (Hash × β)) (ps : List Hash) : List (Hash × β) :=
  ps.foldl (fun acc hs => alDel acc hs) blob

/-- `commit()` (`chaindb.js` lines 333-377) with fault injection: `blobOk`
(`blocksBatch.commitWrites()`) and `kvOk` (`current.write()`) say whether
the two fallible I/O steps succeed.  On a failure the catch block nulls the
batch and pending pointers and drops the two LRU caches — and nothing else —
then rethrows.  On success: key-value write, conditional `state` and
`treeState` swaps, LRU and state-cache promotion, blob prunes. -/
def Sess.commitWith (s : Sess) (blobOk kvOk : Bool) : CommitRes :=
  let db := s.db
  if db.opts.hasBlocks && !blobOk then
    { db := { db with cacheHash := db.cacheHash.drop, cacheHeight := db.cacheHeight.drop },
      trace := [], err := some "blob write failed" }
  else
    let db1 :=
      if db.opts.hasBlocks then
        { db with
          blobBlocks := applyBlobWrites db.blobBlocks s.bt.blobBW,
          blobUndo := applyBlobWrites db.blobUndo s.bt.blobUW }
      else db
    let tr1 := if db.opts.hasBlocks then [CEv.blobWrites] else []
    if !kvOk then
      { db := { db1 with cacheHash := db1.cacheHash.drop, cacheHeight := db1.cacheHeight.drop },
        trace := tr1, err := some "batch write failed" }
    else
      let db2 := { db1 with kv := s.bt.kvP }
      let db3 := if s.bt.pending.committed then { db2 with state := s.bt.pending } else db2
      let tr3 := if s.bt.pending.committed then [CEv.stateSwap] else []
      let db4 :=
        if s.bt.pendingTree.committed then { db3 with treeState := s.bt.pendingTree } else db3
      let tr4 := if s.bt.pendingTree.committed then [CEv.treeStateSwap] else []
      let db5 := { db4 with
        cacheHash := db4.cacheHash.commit,
        cacheHeight := db4.cacheHeight.commit }
      let db6 := { db5 with stateCache := db5.stateCache.commit }
      let db7 :=
        if db.opts.hasBlocks then
          { db6 with
            blobBlocks := applyBlobPrunes db6.blobBlocks s.bt.blobPB,
            blobUndo := applyBlobPrunes db6.blobUndo s.bt.blobPU }
        else db6
      let tr7 := if db.opts.hasBlocks then [CEv.blobPrunes] else []
      { db := db7,
        trace := tr1 ++ [CEv.kvWrite] ++ tr3 ++ tr4
          ++ [CEv.lruPromote, CEv.stateCachePromote] ++ tr7,
        err := none }

/-! ## Writing blocks: `_save` / `connectBlock` and collaborators -/

/-- `saveUpdates()` (`chaindb.js`): write every queued state-cache update
under its `v` key. -/
def Sess.saveUpdates (s : Sess) : Sess :=
  s.db.stateCache.updates.foldl
    (fun acc u => acc.put (Key.v u.bit u.hash) (Val.bitV u.stateV)) s

/-- `saveView(view)` (`chaindb.js`): each spent coin deletes its `c` record,
each live coin writes it; a non-empty bitfield delta is folded into the
in-memory field, which is then rewritten under `f`. -/
def Sess.saveView (s : Sess) (v : CoinView) : Sess :=
  let s1 := v.coins.foldl (fun acc pr =>
      if pr.2.spent then acc.del (Key.c pr.1.hash pr.1.index)
      else acc.put (Key.c pr.1.hash pr.1.index) (Val.coinV pr.2.coin)) s
  if v.bits.isEmpty then s1
  else
    let fld := bitsApply v.bits s1.db.field
    let s2 := { s1 with db := { s1.db with field := fld } }
    s2.put Key.f (Val.fieldV fld)

/-- `tx.getHashes(view)`: the address hashes of the spent coins and the
outputs. -/
def txAddrs (tx : TX) (v : CoinView) : List Nat :=
  (tx.inputs.filterMap (fun op => (v.getOutput op).bind (fun o => o.addr)))
    ++ tx.outputs.filterMap (fun o => o.addr)

/-- The spent-coin loop of the address index: every spent coin must be in
the view (asserted); its `C` record is deleted (`indexTX`) or restored
(`unindexTX`, with `del := false`). -/
def Sess.cInputs (s : Sess) (v : CoinView) (del : Bool) :
    List Outpoint → Except String Sess
  | [] => Except.ok s
  | op :: rest =>
    match v.getOutput op with
    | none => Except.error "Assertion failed: coin."
    | some o =>
      let s1 := match o.addr with
        | none => s
        | some a =>
          if del then s.del (Key.C a op.hash op.index)
          else s.put (Key.C a op.hash op.index) Val.emptyV
      s1.cInputs v del rest

/-- `indexTX(tx, view, entry, index)` (`chaindb.js`): optional `t`/`T`
writes, then the `C` address-index maintenance (spent coins deleted — their
presence in the view is asserted — and created coins added). -/
def Sess.indexTX (s : Sess) (tx : TX) (v : CoinView) (en : Entry) (index : Nat) :
    Except String Sess :=
  let s1 :=
    if s.db.opts.indexTX then
      let sA := s.put (Key.t tx.txid) (Val.metaV tx en.height index)
      if s.db.opts.indexAddress then
        (txAddrs tx v).foldl (fun acc a => acc.put (Key.T a tx.txid) Val.emptyV) sA
      else sA
    else s
  if !s.db.opts.indexAddress then Except.ok s1
  else
    let inputStep : Except String Sess :=
      if tx.cb then Except.ok s1 else s1.cInputs v true tx.inputs
    inputStep.map (fun ss => (enumL 0 tx.outputs).foldl (fun acc pr =>
      match pr.2.addr with
      | none => acc
      | some a => acc.put (Key.C a tx.txid pr.1) Val.emptyV) ss)

/-- The `t`/`T` half of `unindexTX`. -/
def Sess.unindexMeta (s : Sess) (tx : TX) (v : CoinView) : Sess :=
  if s.db.opts.indexTX then
    let sA := s.del (Key.t tx.txid)
    if s.db.opts.indexAddress then
      (txAddrs tx v).foldl (fun acc a => acc.del (Key.T a tx.txid)) sA
    else sA
  else s

/-- `unindexTX(tx, view)` (`chaindb.js`): the mirror of `indexTX`. -/
def Sess.unindexTX (s : Sess) (tx : TX) (v : CoinView) : Except String Sess :=
  let s1 := s.unindexMeta tx v
  if !s.db.opts.indexAddress then Except.ok s1
  else
    let inputStep : Except String Sess :=
      if tx.cb then Except.ok s1 else s1.cInputs v false tx.inputs
    inputStep.map (fun ss => (enumL 0 tx.outputs).foldl (fun acc pr =>
      match pr.2.addr with
      | none => acc
      | some a => acc.del (Key.C a tx.txid pr.1)) ss)

/-- Modelled from the spec: combine one pending tree operation into a root
(only injectivity-free mixing is needed; committing an empty transaction
keeps the root). -/
def commitRootMix (r : Hash) (op : Hash × Option Nat) : Hash :=
  2 * r + 3 * op.1 + (match op.2 with | none => 5 | some d => 7 * d + 11)

/-- Modelled from the spec: the root produced by `txn.commit()`. -/
def commitRoot (r : Hash) (ops : List (Hash × Option Nat)) : Hash :=
  ops.foldl commitRootMix r

/-- Modelled from the spec: fold committed transaction operations into the
tree content. -/
def applyTxn (data : List (Hash × Nat)) (ops : List (Hash × Option Nat)) :
    List (Hash × Nat) :=
  ops.foldl (fun acc op =>
    match op.2 with
    | some d => alPut acc op.1 d
    | none => alDel acc op.1) data

/-- `_saveNames(view, entry, revert)` (`chaindb.js`): null name states are
removed from the tree transaction, others inserted; at a tree-interval
height the transaction is committed (or, when reverting, the tree is
injected back to `entry.treeRoot`) and the new tree state is persisted
under `s` via `pendingTreeState.commit(tree.rootHash(), entry.height)`. -/
def Sess.saveNamesGo (s : Sess) (v : CoinView) (en : Entry) (revert : Bool) : Sess :=
  let txn1 := v.names.foldl (fun acc nv => alPut acc nv.1 nv.2) s.db.txnOps
  let s1 := { s with db := { s.db with txnOps := txn1 } }
  if en.height % s1.db.net.treeInterval = 0 then
    let s2 :=
      if revert then { s1 with db := { s1.db with treeRoot := en.treeRoot } }
      else { s1 with db := { s1.db with
        treeRoot := commitRoot s1.db.treeRoot txn1,
        treeData := applyTxn s1.db.treeData txn1,
        txnOps := [] } }
    let pt := s2.bt.pendingTree.commitRoot s2.db.treeRoot en.height
    let s3 := { s2 with bt := { s2.bt with pendingTree := pt } }
    s3.put Key.s pt.enc
  else s1

/-- `disconnectNames(view, entry)` (`chaindb.js`): read `w(height)` from the
committed store; if present, apply each delta to the name state fetched
through the view and delete the record; then `_saveNames(..., true)`. -/
def Sess.disconnectNames (s : Sess) (v : CoinView) (en : Entry) : Sess :=
  match alGet s.db.kv (Key.w en.height) with
  | some (Val.nameUndoV undo) =>
    let v1 := undo.foldl (fun acc nd => { acc with names := alPut acc.names nd.1 nd.2 }) v
    let s1 := s.del (Key.w en.height)
    s1.saveNamesGo v1 en true
  | _ => s.saveNamesGo v en true

/-- The reversed input loop of `disconnectBlock` for one transaction: pop
an undo coin for each input (underflow is an assertion failure inside
`undo.apply`), re-insert it unspent, and run the mirrored input
accounting. -/
def discInputs (v : CoinView) (st : ChainState) (undo : List CoinEntry) :
    List Outpoint → Except String (CoinView × ChainState × List CoinEntry)
  | [] => Except.ok (v, st, undo)
  | op :: rest =>
    match undo with
    | [] => Except.error "Undo coins underflow."
    | ce :: ud =>
      let vv1 := v.addEntry op ce
      match vv1.getOutput op with
      | none => Except.error "Assertion failed: output."
      | some o => discInputs vv1 (disconnectInput st o) ud rest

/-- One iteration of the reversed transaction loop of `disconnectBlock`:
bitfield undo for the coinbase, otherwise the reversed input loop; then
`removeTX`, the reversed output accounting and `unindexTX`. -/
def Sess.discTx (s : Sess) (v : CoinView) (undo : List CoinEntry) (en : Entry)
    (i : Nat) (tx : TX) : Except String (Sess × CoinView × List CoinEntry) :=
  let step1 : Except String (CoinView × ChainState × List CoinEntry) :=
    if i = 0 then Except.ok ({ v with bits := bitsUndo tx ++ v.bits }, s.bt.pending, undo)
    else discInputs v s.bt.pending undo tx.inputs.reverse
  match step1 with
  | Except.error ex => Except.error ex
  | Except.ok trip =>
    let v2 := trip.1.removeTX tx en.height
    let st2 := (tx.outputs.reverse).foldl disconnectOutput trip.2.1
    match (s.setPending st2).unindexTX tx v2 with
    | Except.error ex => Except.error ex
    | Except.ok s2 => Except.ok (s2, v2, trip.2.2)

/-- The reversed transaction loop of `disconnectBlock`. -/
def Sess.discLoop (s : Sess) (v : CoinView) (undo : List CoinEntry) (en : Entry) :
    List (Nat × TX) → Except String (Sess × CoinView × List CoinEntry)
  | [] => Except.ok (s, v, undo)
  | pr :: rest =>
    match s.discTx v undo en pr.1 pr.2 with
    | Except.error ex => Except.error ex
    | Except.ok out => out.1.discLoop out.2.1 out.2.2 en rest

/-- `disconnectBlock(entry, block)` (`chaindb.js`): read the undo blob,
`pending.disconnect`, the reversed transaction loop, the final "Undo coins
data inconsistency" assertion, `saveView`, the undo-blob prune and
`disconnectNames`. -/
def Sess.disconnectBlock (s : Sess) (en : Entry) (b : Block) :
    Except String (Sess × CoinView) :=
  if s.db.opts.spv then Except.ok (s, {})
  else
    let undo0 := s.db.getUndoCoins b.bhash
    let s0 := s.setPending (s.bt.pending.disconnect b)
    match s0.discLoop {} undo0 en (enumL 0 b.txs).reverse with
    | Except.error ex => Except.error ex
    | Except.ok out =>
      if !out.2.2.isEmpty then Except.error "Undo coins data inconsistency."
      else
        let s2 := out.1.saveView out.2.1
        let s3 := { s2 with bt := { s2.bt with blobPU := s2.bt.blobPU ++ [b.bhash] } }
        let s4 := s3.disconnectNames out.2.1 en
        Except.ok (s4, out.2.1)

/-- `_disconnect(entry, block)` (`chaindb.js`): delete the `n` and `H`
indices, unstage the height cache, flush the state cache, disconnect the
block and revert the `R` record to `pending.commit(entry.prevBlock)`. -/
def Sess.disconnectE (s : Sess) (en : Entry) (b : Block) :
    Except String (Sess × CoinView) :=
  let s1 := s.del (Key.n en.prevBlock)
  let s2 := s1.del (Key.H en.height)
  let s3 := { s2 with db := { s2.db with
    cacheHeight := s2.db.cacheHeight.unpush en.height } }
  let s4 := s3.saveUpdates
  match s4.disconnectBlock en b with
  | Except.error ex => Except.error ex
  | Except.ok out =>
    let pd := out.1.bt.pending.commitTip en.prevBlock
    Except.ok ((out.1.setPending pd).put Key.R pd.enc, out.2)

/-- `disconnect(entry, block)` (`chaindb.js`): start, `_disconnect`, drop on
error, commit on success, return the restored view. -/
def ChainDB.disconnect (db : ChainDB) (en : Entry) (b : Block) :
    Except String (ChainDB × CoinView) :=
  match db.startSess.disconnectE en b with
  | Except.error ex => Except.error ex
  | Except.ok out =>
    let r := out.1.commitWith true true
    match r.err with
    | some ex => Except.error ex
    | none => Except.ok (r.db, out.2)

/-! ## Reset -/

/-- `getBlock(hash)` (`chaindb.js`): the raw block from the blob store
(`null` in SPV mode). -/
def ChainDB.getBlockF (db : ChainDB) (hash : Hash) : Option Block :=
  if db.opts.spv then none
  else alGet db.blobBlocks hash

/-- `removeBlock(entry)` (`chaindb.js`): read the block, queue its blob
prune and disconnect its inputs. -/
def Sess.removeBlockE (s : Sess) (en : Entry) : Except String (Sess × CoinView) :=
  if s.db.opts.spv then Except.ok (s, {})
  else match s.db.getBlockF en.hash with
  | none => Except.error "Block not found."
  | some b =>
    let s1 := { s with bt := { s.bt with blobPB := s.bt.blobPB ++ [b.bhash] } }
    s1.disconnectBlock en b

/-- `_removeChain(hash)` (`chaindb.js`): walk an alternate chain down until
it rejoins the main chain, deleting the `p`/`h`/`e` records, queueing block
prunes and unstaging the hash cache.  `fuel` bounds the walk. -/
def Sess.removeChainGo (s : Sess) : Nat → Entry → Except String Sess
  | 0, _ => Except.error "Out of fuel."
  | fuel + 1, tip =>
    if s.db.isMainChain tip then Except.ok s
    else if tip.isGenesis then Except.error "Assertion failed: not genesis."
    else
      let s1 := s.del (Key.p tip.hash)
      let s2 := s1.del (Key.h tip.hash)
      let s3 := s2.del (Key.e tip.hash)
      let s4 :=
        if s3.db.opts.hasBlocks then
          { s3 with bt := { s3.bt with blobPB := s3.bt.blobPB ++ [tip.hash] } }
        else s3
      let s5 := { s4 with db := { s4.db with
        cacheHash := s4.db.cacheHash.unpush tip.hash } }
      match s5.db.getEntryByHash tip.prevBlock with
      | none => Except.error "Assertion failed: tip."
      | some prev => s5.removeChainGo fuel prev

/-- `removeChains()` (`chaindb.js`): remove every alternate chain in one
atomic batch. -/
def ChainDB.removeChains (db : ChainDB) (fuel : Nat) : Except String ChainDB :=
  let tips := db.getTips
  match tips.foldl (fun acc hs => acc.bind (fun ss =>
    match ss.db.getEntryByHash hs with
    | none => Except.error "Alternate chain tip not found."
    | some tip => ss.removeChainGo fuel tip)) (Except.ok db.startSess) with
  | Except.error ex => Except.error ex
  | Except.ok s1 =>
    let r := s1.commitWith true true
    match r.err with
    | some ex => Except.error ex
    | none => Except.ok r.db

/-- The main loop of `reset(block)`: one batch per disconnected tip, with
the final iteration committing `R` at the target. -/
def ChainDB.resetGo (db : ChainDB) (target : Entry) :
    Nat → Entry → Except String (ChainDB × Entry)
  | 0, _ => Except.error "Out of fuel."
  | fuel + 1, tip =>
    let s := db.startSess
    if tip.hash = target.hash then
      let pd := s.bt.pending.commitTip tip.hash
      let s1 := (s.setPending pd).put Key.R pd.enc
      let r := s1.commitWith true true
      match r.err with
      | some ex => Except.error ex
      | none => Except.ok (r.db, tip)
    else if tip.isGenesis then Except.error "Assertion failed: not genesis."
    else
      let s1 := s.del (Key.p tip.hash)
      let s2 := s1.put (Key.p tip.prevBlock) Val.emptyV
      let s3 := s2.del (Key.H tip.height)
      let s4 := s3.del (Key.h tip.hash)
      let s5 := s4.del (Key.e tip.hash)
      let s6 := s5.del (Key.n tip.prevBlock)
      match s6.removeBlockE tip with
      | Except.error ex => Except.error ex
      | Except.ok out =>
        let pd := out.1.bt.pending.commitTip tip.prevBlock
        let s8 := (out.1.setPending pd).put Key.R pd.enc
        let r := s8.commitWith true true
        match r.err with
        | some ex => Except.error ex
        | none =>
          let db1 := { r.db with
            cacheHeight := r.db.cacheHeight.removeDirect tip.height,
            cacheHash := r.db.cacheHash.removeDirect tip.hash }
          match db1.getPrevious tip with
          | none => Except.error "Assertion failed: tip."
          | some prev => db1.resetGo target fuel prev

/-- `reset(block)` (`chaindb.js`): the four precondition checks (missing
entry, alternate chain, pruned database, compacted tree) fail fast before
any mutation; then `removeChains` and the disconnect loop down to the
target. -/
def ChainDB.reset (db : ChainDB) (block : Hash ⊕ Nat) (fuel : Nat) :
    Except String (ChainDB × Entry) :=
  match db.getEntry block with
  | none => Except.error "Block not found."
  | some en =>
    if !db.isMainChain en then Except.error "Cannot reset on alternate chain."
    else if db.opts.prune then Except.error "Cannot reset when pruned."
    else if db.treeState.compactionHeight ≠ 0 then
      Except.error "Cannot reset when tree is compacted."
    else
      match db.removeChains fuel with
      | Except.error ex => Except.error ex
      | Except.ok db1 =>
        match db1.getTip with
        | none => Except.error "Assertion failed: tip."
        | some tip => db1.resetGo en fuel tip

/-! ## Scanning -/

/-- Modelled from the spec: a bloom filter, reduced to its per-transaction
test (`tx.testAndMaybeUpdate(filter)`); the filter's self-update is not
observable through `scan`'s results beyond which transactions match. -/
structure BloomFilter where
  test : TX → Bool

/-- The walk of `scan(start, filter, iter)` along `getNext`, returning the
list of `iter(entry, txs)` invocations in order.  A missing block throws
unless the chain is SPV or pruned, in which case `iter` receives an empty
list.  `fuel` bounds the walk. -/
def ChainDB.scanGo (db : ChainDB) (filter : BloomFilter) :
    Nat → Option Entry → Except String (List (Entry × List TX))
  | 0, _ => Except.error "Out of fuel."
  | _, none => Except.ok []
  | fuel + 1, some en =>
    match db.getBlockF en.hash with
    | none =>
      if !db.opts.spv && !db.opts.prune then Except.error "Block not found."
      else
        match db.scanGo filter fuel (db.getNext en) with
        | Except.error ex => Except.error ex
        | Except.ok rest => Except.ok ((en, []) :: rest)
    | some b =>
      let txs := b.txs.filter filter.test
      match db.scanGo filter fuel (db.getNext en) with
      | Except.error ex => Except.error ex
      | Except.ok rest => Except.ok ((en, txs) :: rest)

/-- `scan(start, filter, iter)` (`chaindb.js`): resolve the start entry (the
genesis hash when `null`), refuse alternate chains, then walk. -/
def ChainDB.scan (db : ChainDB) (start : Option (Hash ⊕ Nat)) (filter : BloomFilter)
    (fuel : Nat) : Except String (List (Entry × List TX)) :=
  let startID := match start with
    | none => Sum.inl db.net.genesisHash
    | some x => x
  match db.getEntry startID with
  | none => Except.ok []
  | some en =>
    if !db.isMainChain en then Except.error "Cannot rescan an alternate chain."
    else db.scanGo filter fuel (some en)

/-! ## Further association-list lemmas -/

theorem alGet_filter_false {α β : Type} [DecidableEq α] {l : List (α × β)}
    {p : α × β → Bool} {k : α} (hp : ∀ v, p (k, v) = false) :
    alGet (l.filter p) k = none := by
  induction l with
  | nil => rfl
  | cons pr rest ih =>
    rcases pr with ⟨k0, v0⟩
    by_cases hpk : p (k0, v0) = true
    · have hk0 : ¬ k0 = k := by
        intro h; subst h
        rw [hp v0] at hpk
        exact absurd hpk (by simp)
      simp [List.filter_cons, hpk, alGet, hk0, ih]
    · have hfalse : p (k0, v0) = false := by
        cases hpv : p (k0, v0)
        · rfl
        · exact absurd hpv hpk
      simp [List.filter_cons, hfalse, ih]

theorem alGet_filter_true {α β : Type} [DecidableEq α] {l : List (α × β)}
    {p : α × β → Bool} {k : α} (hp : ∀ v, p (k, v) = true) :
    alGet (l.filter p) k = alGet l k := by
  induction l with
  | nil => rfl
  | cons pr rest ih =>
    rcases pr with ⟨k0, v0⟩
    by_cases hk0 : k0 = k
    · subst hk0
      simp [List.filter_cons, hp v0, alGet]
    · by_cases hpk : p (k0, v0) = true
      · simp [List.filter_cons, hpk, alGet, hk0, ih]
      · have hfalse : p (k0, v0) = false := by
          cases hpv : p (k0, v0)
          · rfl
          · exact absurd hpv hpk
        simp [List.filter_cons, hfalse, alGet, hk0, ih]

theorem alGet_filter_none_mono {α β : Type} [DecidableEq α] {p : α × β → Bool} {k : α}
    {l : List (α × β)} (h : alGet l k = none) :
    alGet (l.filter p) k = none := by
  induction l with
  | nil => rfl
  | cons pr rest ih =>
    rcases pr with ⟨k0, v0⟩
    have hk0 : ¬ k0 = k := by
      intro hh; subst hh; simp [alGet] at h
    have hrest : alGet rest k = none := by simpa [alGet, hk0] using h
    by_cases hpk : p (k0, v0) = true
    · simp [List.filter_cons, hpk, alGet, hk0, ih hrest]
    · have hfalse : p (k0, v0) = false := by
        cases hpv : p (k0, v0)
        · rfl
        · exact absurd hpv hpk
      simp [List.filter_cons, hfalse, ih hrest]

/-! ## Claim C6 — claim outputs credit value only at sequence 1 -/

/-- C6: in `connectBlock`, a spendable CLAIM output adds its value to the
pending chain-state value counter exactly when the covenant's u32 field at
index 5 equals 1, and leaves the counters untouched otherwise.
`connectOutput` is the per-output accounting step of `connectBlock`. -/
theorem claim_C6_claim_sequence (st : ChainState) (o : Output)
    (hs : o.unspendable = false) (hc : o.covenant.ctype = CovType.CLAIM) :
    connectOutput st o = (if o.covenant.u32at5 = 1 then st.add o else st) ∧
    (connectOutput st o).value =
      (if o.covenant.u32at5 = 1 then st.value + o.value else st.value) := by
  have hnr : o.covenant.isRegister = false := by
    simp [Covenant.isRegister, hc]
  have hnl : covLocked o.covenant.ctype = false := by
    simp [covLocked, hc, CovType.code]
  have hcl : o.covenant.isClaim = true := by
    simp [Covenant.isClaim, hc]
  constructor
  · by_cases h1 : o.covenant.u32at5 = 1
    · simp [connectOutput, hs, hnr, hnl, hcl, h1]
    · simp [connectOutput, hs, hnr, hnl, hcl, h1]
  · by_cases h1 : o.covenant.u32at5 = 1
    · simp [connectOutput, hs, hnr, hnl, hcl, h1, ChainState.add]
    · simp [connectOutput, hs, hnr, hnl, hcl, h1]

/-- A first-sequence claim output used as witness input. -/
def exClaimOut : Output :=
  { value := 5, covenant := { ctype := CovType.CLAIM, u32at5 := 1 } }

/-- Witness for C6 at a concrete first-sequence claim output. -/
theorem claim_C6_witness :
    connectOutput {} exClaimOut =
      (if exClaimOut.covenant.u32at5 = 1 then ChainState.add {} exClaimOut else {}) ∧
    (connectOutput {} exClaimOut).value =
      (if exClaimOut.covenant.u32at5 = 1
       then ({} : ChainState).value + exClaimOut.value
       else ({} : ChainState).value) :=
  claim_C6_claim_sequence {} exClaimOut rfl rfl

/-! ## Claim C10 — `getNameStatus` never returns null -/

/-- C10: `getNameStatus(nameHash, height)` never returns null: with no
record in the current tree transaction it returns a fresh `NameState` reset
at the given height; for an existing record it returns the decoded state
after applying expiration for that height. -/
theorem claim_C10_getNameStatus_total (db : ChainDB) (nh : Hash) (height : Nat) :
    ∃ ns, db.getNameStatus nh height = some ns ∧
      (db.txnGet nh = none → ns = NameState.reset {} height) ∧
      (∀ raw, db.txnGet nh = some raw →
        ns = NameState.maybeExpire { NameState.decode raw with nameHash := nh } height) := by
  cases hraw : db.txnGet nh with
  | none =>
    refine ⟨NameState.reset {} height, ?_, fun _ => rfl, ?_⟩
    · simp [ChainDB.getNameStatus, ChainDB.getNameState, hraw]
    · intro raw hr; cases hr
  | some raw =>
    refine ⟨NameState.maybeExpire { NameState.decode raw with nameHash := nh } height,
      ?_, ?_, ?_⟩
    · simp [ChainDB.getNameStatus, ChainDB.getNameState, hraw]
    · intro hr; cases hr
    · intro raw2 hr
      cases hr
      rfl

/-! ## Claim C8 — deployment-table encoding errors invalidate all bits -/

theorem invalidateCache_v_same (kv : KV) (b hs : Nat) :
    alGet (invalidateCache kv b) (Key.v b hs) = none := by
  apply alGet_filter_false
  intro v
  simp

theorem foldl_invalidate_preserve_none (bits : List Nat) (kv : KV) (k : Key)
    (h : alGet kv k = none) :
    alGet (bits.foldl (fun acc b => invalidateCache acc b) kv) k = none := by
  induction bits generalizing kv with
  | nil => exact h
  | cons b rest ih => exact ih _ (alGet_filter_none_mono h)

theorem foldl_invalidate_none (bits : List Nat) (kv : KV) (bit hs : Nat)
    (hmem : bit ∈ bits) :
    alGet (bits.foldl (fun acc b => invalidateCache acc b) kv) (Key.v bit hs) = none := by
  induction bits generalizing kv with
  | nil => cases hmem
  | cons b rest ih =>
    rcases List.mem_cons.mp hmem with h | h
    · subst h
      exact foldl_invalidate_preserve_none rest _ _ (invalidateCache_v_same kv bit hs)
    · exact ih _ h

/-- C8: when the stored deployment table does not decode (an encoding
error), `verifyDeployments` does not fail: all 32 bits are treated as
invalid, every cached versionbit state entry for those bits is deleted, the
deployment table is rewritten and `false` is returned. -/
theorem claim_C8_verifyDeployments_encoding_error (net : Network) (kv : KV) (dv : Val)
    (hD : alGet kv Key.D = some dv)
    (hbad : ∀ tbl, dv ≠ Val.deployV tbl) :
    ∃ kv2, verifyDeployments net kv = Except.ok (false, kv2) ∧
      (∀ bit hs, bit < 32 → alGet kv2 (Key.v bit hs) = none) ∧
      alGet kv2 Key.D = some (Val.deployV net.deploys) := by
  have hchk : checkDeployments net kv = Except.error DbErr.encodingErr := by
    unfold checkDeployments
    rw [hD]
    cases dv <;> first
      | rfl
      | exact absurd rfl (hbad _)
  refine ⟨writeDeployments net ((List.range 32).foldl
    (fun acc bit => invalidateCache acc bit) kv), ?_, ?_, ?_⟩
  · unfold verifyDeployments
    rw [hchk]
    rfl
  · intro bit hs hlt
    have hne : ¬ (Key.D = Key.v bit hs) := fun h => by cases h
    unfold writeDeployments
    rw [alGet_put, if_neg hne]
    exact foldl_invalidate_none _ _ _ _ (List.mem_range.mpr hlt)
  · unfold writeDeployments
    exact alGet_put_self _ _ _

/-- Witness network and store for C8: an undecodable `D` record plus a
cached versionbit entry. -/
def exNet8 : Network := { deploys := [⟨0, 1, 2, 3, 4⟩] }

def exKv8 : KV := [(Key.D, Val.rawV 99), (Key.v 3 9, Val.bitV 1)]

/-- Witness for C8 at the concrete store. -/
theorem claim_C8_witness :
    ∃ kv2, verifyDeployments exNet8 exKv8 = Except.ok (false, kv2) ∧
      (∀ bit hs, bit < 32 → alGet kv2 (Key.v bit hs) = none) ∧
      alGet kv2 Key.D = some (Val.deployV exNet8.deploys) :=
  claim_C8_verifyDeployments_encoding_error exNet8 exKv8 (Val.rawV 99) rfl
    (fun _ h => Val.noConfusion h)

/-! ## Claim C5 — the prune boundary -/

theorem collectHashesL_ok (db : ChainDB) (L : List Nat)
    (h : ∀ i ∈ L, (db.getHashOf i).isSome = true) :
    ∃ l, collectHashesL db L = Except.ok l := by
  induction L with
  | nil => exact ⟨[], rfl⟩
  | cons i rest ih =>
    have hi := h i (List.mem_cons_self i rest)
    cases hh : db.getHashOf i with
    | none => rw [hh] at hi; cases hi
    | some hs =>
      obtain ⟨tl, htl⟩ := ih (fun j hj => h j (List.mem_cons_of_mem _ hj))
      exact ⟨hs :: tl, by simp [collectHashesL, hh, htl]⟩

/-- C5 (amended): with non-SPV options, flags present and not yet pruned,
`prune()` returns `false` — and returns the database unchanged — exactly
when `tip.height ≤ pruneAfterHeight + keepBlocks` (that is, when
`end < start`); when `tip.height` is strictly larger and the range hashes
exist it prunes and returns `true`.  (The claim's boundary `end = start` is
the counterexample: there the code prunes and returns `true`.) -/
theorem claim_C5_prune_boundary (db : ChainDB) (fl : ChainFlagsRec) (ht : Nat)
    (hspv : db.opts.spv = false)
    (hfl : db.getFlags = some fl)
    (hpr : fl.prune = false)
    (hht : db.getHeightOf db.state.tip = some ht) :
    (ht ≤ db.net.pruneAfterHeight + db.net.keepBlocks →
        db.prune = Except.ok (false, db)) ∧
    (db.net.pruneAfterHeight + db.net.keepBlocks < ht →
      (∀ i ∈ heightRange (db.net.pruneAfterHeight + 1) (ht - db.net.keepBlocks),
          (db.getHashOf i).isSome = true) →
      ∃ db2, db.prune = Except.ok (true, db2)) := by
  constructor
  · intro hle
    unfold ChainDB.prune
    rw [hspv, hfl, hht]
    simp [hpr, hle]
  · intro hgt hall
    obtain ⟨l, hl⟩ := collectHashesL_ok db _ hall
    exact ⟨_, by
      unfold ChainDB.prune
      rw [hspv, hfl, hht]
      simp only [Bool.false_eq_true, if_false, hpr, if_neg (Nat.not_le.mpr hgt)]
      unfold collectHashes
      rw [hl]⟩

/-- A network with a tiny prune window for the C5 boundary. -/
def exNet5 : Network :=
  { treeInterval := 5, keepBlocks := 2, pruneAfterHeight := 0, deploys := [], genesisHash := 1 }

/-- A chain of height 3: `end = 3 - 2 = 1` equals `start = 0 + 1 = 1`. -/
def exDb5 : ChainDB :=
  { opts := {}, net := exNet5,
    kv := [(Key.O, Val.flagsV {}), (Key.h 40, Val.u32 3), (Key.H 1, Val.hsh 10)],
    state := { tip := 40 } }

/-- Extract the Boolean result of `prune()`. -/
def pruneFlagOf (r : Except String (Bool × ChainDB)) : Option Bool :=
  match r with
  | Except.ok pr => some pr.1
  | Except.error _ => none

/-- Counterexample to C5 as stated: at `tip.height = 3`,
`end = tip.height - keepBlocks = 1` and `start = pruneAfterHeight + 1 = 1`,
so `end ≤ start`, yet `prune()` prunes and returns `true` (the code only
returns `false` when `end < start`). -/
theorem claim_C5_cex :
    (3 - exNet5.keepBlocks ≤ exNet5.pruneAfterHeight + 1) ∧
    exDb5.getHeightOf exDb5.state.tip = some 3 ∧
    pruneFlagOf exDb5.prune = some true := by decide

/-- Witness for the amended C5 at the same network: a tip of height 2 is
inside the window, so `prune()` returns `false` with the database
unchanged; the height-3 database (the counterexample input) prunes. -/
def exDb5b : ChainDB :=
  { opts := {}, net := exNet5,
    kv := [(Key.O, Val.flagsV {}), (Key.h 41, Val.u32 2)],
    state := { tip := 41 } }

theorem claim_C5_witness :
    exDb5b.prune = Except.ok (false, exDb5b) ∧
    (∃ db2, exDb5.prune = Except.ok (true, db2)) := by
  constructor
  · exact (claim_C5_prune_boundary exDb5b {} 2 rfl rfl rfl rfl).1 (by decide)
  · exact (claim_C5_prune_boundary exDb5 {} 3 rfl rfl rfl rfl).2 (by decide) (by decide)

/-! ## Claim C2 — commit ordering -/

/-- C2: a successful `commit()` performs its effects in exactly the order:
blob writes, atomic key-value batch write, `state` swap (only if
`pending.committed`), `treeState` swap (only if `pendingTreeState.committed`),
LRU and StateCache promotion, blob prunes. -/
theorem claim_C2_commit_order (s : Sess) (hb : s.db.opts.hasBlocks = true) :
    (s.commitWith true true).err = none ∧
    (s.commitWith true true).trace =
      [CEv.blobWrites, CEv.kvWrite]
        ++ (if s.bt.pending.committed then [CEv.stateSwap] else [])
        ++ (if s.bt.pendingTree.committed then [CEv.treeStateSwap] else [])
        ++ [CEv.lruPromote, CEv.stateCachePromote, CEv.blobPrunes] := by
  cases h1 : s.bt.pending.committed <;> cases h2 : s.bt.pendingTree.committed <;>
    simp [Sess.commitWith, hb, h1, h2]

/-- Witness for C2 on a default database's fresh session. -/
theorem claim_C2_witness :
    ((({} : ChainDB).startSess).commitWith true true).err = none ∧
    ((({} : ChainDB).startSess).commitWith true true).trace =
      [CEv.blobWrites, CEv.kvWrite]
        ++ (if (({} : ChainDB).startSess).bt.pending.committed then [CEv.stateSwap] else [])
        ++ (if (({} : ChainDB).startSess).bt.pendingTree.committed
            then [CEv.treeStateSwap] else [])
        ++ [CEv.lruPromote, CEv.stateCachePromote, CEv.blobPrunes] :=
  claim_C2_commit_order (({} : ChainDB).startSess) (by decide)

/-! ## Claim C3 — failed commits -/

/-- C3 (amended): if the blob-write commit or the key-value batch write
inside `commit()` fails, the exception is propagated and the in-memory
`state` and `treeState` keep their old values, no pending state is swapped
in, the key-value store is untouched and the staged LRU-cache entries are
dropped — but the staged StateCache updates are NOT rolled back: they are
retained as-is (the catch block never calls `stateCache.drop()`). -/
theorem claim_C3_commit_failure (s : Sess) (blobOk kvOk : Bool)
    (hfail : (s.db.opts.hasBlocks = true ∧ blobOk = false) ∨ kvOk = false) :
    ∃ msg, (s.commitWith blobOk kvOk).err = some msg ∧
      (s.commitWith blobOk kvOk).db.state = s.db.state ∧
      (s.commitWith blobOk kvOk).db.treeState = s.db.treeState ∧
      (s.commitWith blobOk kvOk).db.kv = s.db.kv ∧
      (s.commitWith blobOk kvOk).db.cacheHash = s.db.cacheHash.drop ∧
      (s.commitWith blobOk kvOk).db.cacheHeight = s.db.cacheHeight.drop ∧
      (s.commitWith blobOk kvOk).db.stateCache = s.db.stateCache := by
  rcases hfail with ⟨hb, hblob⟩ | hkv
  · subst hblob
    exact ⟨"blob write failed", by simp [Sess.commitWith, hb]⟩
  · subst hkv
    by_cases hhb : s.db.opts.hasBlocks = true
    · by_cases hbo : blobOk = true
      · subst hbo
        exact ⟨"batch write failed", by simp [Sess.commitWith, hhb]⟩
      · have hbo2 : blobOk = false := by
          cases blobOk with
          | false => rfl
          | true => exact absurd rfl hbo
        subst hbo2
        exact ⟨"blob write failed", by simp [Sess.commitWith, hhb]⟩
    · have hhb2 : s.db.opts.hasBlocks = false := by
        cases hx : s.db.opts.hasBlocks with
        | false => rfl
        | true => exact absurd hx hhb
      exact ⟨"batch write failed", by simp [Sess.commitWith, hhb2]⟩

/-- A database with one staged StateCache update. -/
def exDb3 : ChainDB :=
  { stateCache := { cache := [⟨0, 7, 1⟩], updates := [⟨0, 7, 1⟩] } }

/-- Counterexample to C3 as stated: after a failed key-value write the
staged StateCache update is still queued (and still visible), whereas a
rollback — what `drop()` does — would have cleared it. -/
theorem claim_C3_cex :
    ((exDb3.startSess).commitWith true false).err.isSome = true ∧
    ((exDb3.startSess).commitWith true false).db.stateCache.updates = [⟨0, 7, 1⟩] ∧
    ((exDb3.startSess).commitWith true false).db.stateCache.updates ≠ [] ∧
    ((exDb3.startSess).dropSess).stateCache.updates = [] := by decide

/-- Witness for the amended C3 at the same concrete session. -/
theorem claim_C3_witness :
    ∃ msg, ((exDb3.startSess).commitWith true false).err = some msg ∧
      ((exDb3.startSess).commitWith true false).db.state = (exDb3.startSess).db.state ∧
      ((exDb3.startSess).commitWith true false).db.treeState =
        (exDb3.startSess).db.treeState ∧
      ((exDb3.startSess).commitWith true false).db.kv = (exDb3.startSess).db.kv ∧
      ((exDb3.startSess).commitWith true false).db.cacheHash =
        (exDb3.startSess).db.cacheHash.drop ∧
      ((exDb3.startSess).commitWith true false).db.cacheHeight =
        (exDb3.startSess).db.cacheHeight.drop ∧
      ((exDb3.startSess).commitWith true false).db.stateCache =
        (exDb3.startSess).db.stateCache :=
  claim_C3_commit_failure (exDb3.startSess) true false (Or.inr rfl)

/-! ## Claim C7 — reset precondition guards -/

/-- C7: `reset(block)` fails fast with a descriptive error — and hence
without reaching any mutating step — whenever the target entry does not
exist, the target is not on the main chain, the prune option is enabled, or
the tree has a non-zero compaction height.  (In the model the error paths
return before any state is constructed, so the database is untouched by
construction.) -/
theorem claim_C7_reset_guards (db : ChainDB) (block : Hash ⊕ Nat) (fuel : Nat)
    (hviol : match db.getEntry block with
      | none => True
      | some en => db.isMainChain en = false ∨ db.opts.prune = true ∨
          db.treeState.compactionHeight ≠ 0) :
    ∃ msg, db.reset block fuel = Except.error msg ∧
      (msg = "Block not found." ∨ msg = "Cannot reset on alternate chain." ∨
       msg = "Cannot reset when pruned." ∨ msg = "Cannot reset when tree is compacted.") := by
  cases hen : db.getEntry block with
  | none =>
    refine ⟨"Block not found.", ?_, Or.inl rfl⟩
    unfold ChainDB.reset
    rw [hen]
  | some en =>
    rw [hen] at hviol
    by_cases hmc : db.isMainChain en = true
    · by_cases hpr : db.opts.prune = true
      · refine ⟨"Cannot reset when pruned.", ?_, Or.inr (Or.inr (Or.inl rfl))⟩
        unfold ChainDB.reset
        rw [hen]
        simp [hmc, hpr]
      · have hcp : db.treeState.compactionHeight ≠ 0 := by
          rcases hviol with h | h | h
          · rw [hmc] at h; cases h
          · exact absurd h hpr
          · exact h
        refine ⟨"Cannot reset when tree is compacted.", ?_,
          Or.inr (Or.inr (Or.inr rfl))⟩
        unfold ChainDB.reset
        rw [hen]
        simp [hmc, hpr, hcp]
    · have hmcf : db.isMainChain en = false := by
        cases hb : db.isMainChain en
        · rfl
        · exact absurd hb hmc
      refine ⟨"Cannot reset on alternate chain.", ?_, Or.inr (Or.inl rfl)⟩
      unfold ChainDB.reset
      rw [hen]
      simp [hmcf]

/-- A pruned database holding its genesis entry, for the C7 witness. -/
def exDb7 : ChainDB :=
  { opts := { prune := true },
    kv := [(Key.e 5, Val.entryV { hash := 5, height := 0, prevBlock := 0, treeRoot := 0 })] }

/-- Witness for C7: resetting a pruned chain fails fast. -/
theorem claim_C7_witness :
    ∃ msg, exDb7.reset (Sum.inl 5) 3 = Except.error msg ∧
      (msg = "Block not found." ∨ msg = "Cannot reset on alternate chain." ∨
       msg = "Cannot reset when pruned." ∨ msg = "Cannot reset when tree is compacted.") :=
  claim_C7_reset_guards exDb7 (Sum.inl 5) 3 (Or.inr (Or.inl rfl))

/-! ## Claim C9 — scanning a pruned region -/

/-- The specification side of C9, following the spec's words: the scan
visits each entry along `getNext`, invoking `iter` with an empty list for a
missing block and with the filtered transactions otherwise, and terminates
when `getNext` yields null (`none` when the walk does not finish within
`fuel`). -/
def scanSpecWalk (db : ChainDB) (filter : BloomFilter) :
    Nat → Option Entry → Option (List (Entry × List TX))
  | 0, _ => none
  | _ + 1, none => some []
  | fuel + 1, some en =>
    (scanSpecWalk db filter fuel (db.getNext en)).map (fun rest =>
      (en, match db.getBlockF en.hash with
           | none => []
           | some b => b.txs.filter filter.test) :: rest)

theorem scanGo_pruned (db : ChainDB) (filter : BloomFilter)
    (hprune : db.opts.prune = true) :
    ∀ (fuel : Nat) (start : Option Entry) (tr : List (Entry × List TX)),
      scanSpecWalk db filter fuel start = some tr →
      db.scanGo filter fuel start = Except.ok tr ∧
      ∀ pr ∈ tr, db.getBlockF pr.1.hash = none → pr.2 = [] := by
  intro fuel
  induction fuel with
  | zero =>
    intro start tr h
    cases start <;> cases h
  | succ fuel ih =>
    intro start tr h
    cases start with
    | none =>
      cases h
      exact ⟨rfl, by intro pr hpr; cases hpr⟩
    | some en =>
      rw [scanSpecWalk] at h
      rcases Option.map_eq_some'.mp h with ⟨rest, hrest, htr⟩
      obtain ⟨hgo, hmem⟩ := ih _ _ hrest
      subst htr
      cases hb : db.getBlockF en.hash with
      | none =>
        constructor
        · simp [ChainDB.scanGo, hb, hgo, hprune]
        · intro pr hpr
          rcases List.mem_cons.mp hpr with hh | hh
          · subst hh; intro _; simp [hb]
          · exact hmem pr hh
      | some b =>
        constructor
        · simp [ChainDB.scanGo, hb, hgo]
        · intro pr hpr
          rcases List.mem_cons.mp hpr with hh | hh
          · subst hh
            intro hcontra
            rw [hb] at hcontra
            cases hcontra
          · exact hmem pr hh

/-- C9: during `scan` over the main chain with pruning enabled, every entry
whose block is missing from the blob store has `iter` invoked with that
entry and an empty transaction list, without error, and the walk continues;
the scan terminates when `getNext` yields null (the `scanSpecWalk`
hypothesis says the walk reaches null within `fuel`). -/
theorem claim_C9_scan_pruned (db : ChainDB) (filter : BloomFilter) (fuel : Nat)
    (startID : Hash ⊕ Nat) (en : Entry) (tr : List (Entry × List TX))
    (hprune : db.opts.prune = true)
    (hen : db.getEntry startID = some en)
    (hmc : db.isMainChain en = true)
    (hwalk : scanSpecWalk db filter fuel (some en) = some tr) :
    db.scan (some startID) filter fuel = Except.ok tr ∧
    ∀ pr ∈ tr, db.getBlockF pr.1.hash = none → pr.2 = [] := by
  obtain ⟨hgo, hmem⟩ := scanGo_pruned db filter hprune fuel (some en) tr hwalk
  refine ⟨?_, hmem⟩
  simp [ChainDB.scan, hen, hmc, hgo]

/-- Two-entry chain for the C9 witness: the block at height 1 is pruned. -/
def exEntry9a : Entry := { hash := 10, height := 1, prevBlock := 1, treeRoot := 0 }

def exEntry9b : Entry := { hash := 20, height := 2, prevBlock := 10, treeRoot := 0 }

def exTx9 : TX := { txid := 77, inputs := [], outputs := [], cb := true }

def exDb9 : ChainDB :=
  { opts := { prune := true },
    kv := [(Key.e 10, Val.entryV exEntry9a), (Key.e 20, Val.entryV exEntry9b),
           (Key.n 10, Val.hsh 20)],
    blobBlocks := [(20, { bhash := 20, txs := [exTx9] })],
    state := { tip := 20 } }

def exFilter : BloomFilter := { test := fun _ => true }

/-- Witness for C9: the pruned entry is visited with an empty list and the
scan completes. -/
theorem claim_C9_witness :
    exDb9.scan (some (Sum.inl 10)) exFilter 3 =
      Except.ok [(exEntry9a, []), (exEntry9b, [exTx9])] :=
  (claim_C9_scan_pruned exDb9 exFilter 3 (Sum.inl 10) exEntry9a
    [(exEntry9a, []), (exEntry9b, [exTx9])] rfl rfl rfl rfl).1

/-! ## Claim C4 — the undo stream is consumed exactly -/

theorem getOutput_isSome_iff (v : CoinView) (op : Outpoint) :
    (v.getOutput op).isSome = (alGet v.coins op).isSome := by
  unfold CoinView.getOutput
  cases alGet v.coins op <;> rfl

theorem alGet_put_isSome {α β : Type} [DecidableEq α] (l : List (α × β)) (k k' : α) (v : β)
    (h : (alGet l k').isSome = true) : (alGet (alPut l k v) k').isSome = true := by
  rw [alGet_put]
  by_cases hk : k = k' <;> simp [hk, h]

theorem foldl_putskip_isSome {α β γ : Type} [DecidableEq α]
    (g : List (α × β) → γ → List (α × β))
    (hg : ∀ acc x k, (alGet acc k).isSome = true → (alGet (g acc x) k).isSome = true)
    (L : List γ) (l : List (α × β)) (k : α)
    (h : (alGet l k).isSome = true) : (alGet (L.foldl g l) k).isSome = true := by
  induction L generalizing l with
  | nil => exact h
  | cons x rest ih => exact ih _ (hg _ _ _ h)

theorem getOutput_isSome_removeTX (v : CoinView) (tx : TX) (ht : Nat) (op : Outpoint)
    (h : (v.getOutput op).isSome = true) :
    ((v.removeTX tx ht).getOutput op).isSome = true := by
  rw [getOutput_isSome_iff] at h ⊢
  show (alGet ((enumL 0 tx.outputs).foldl _ v.coins) op).isSome = true
  refine foldl_putskip_isSome _ ?_ _ _ _ h
  intro acc pr k hk
  by_cases hu : pr.2.unspendable = true
  · simpa [hu] using hk
  · simp only [hu, Bool.false_eq_true, if_false]
    exact alGet_put_isSome _ _ _ _ hk

theorem getOutput_addEntry_self (v : CoinView) (op : Outpoint) (ce : CoinEntry) :
    (v.addEntry op ce).getOutput op = some ce.output := by
  simp [CoinView.addEntry, CoinView.getOutput, alGet_put_self]

theorem getOutput_isSome_addEntry (v : CoinView) (op op2 : Outpoint) (ce : CoinEntry)
    (h : (v.getOutput op2).isSome = true) :
    ((v.addEntry op ce).getOutput op2).isSome = true := by
  rw [getOutput_isSome_iff] at h ⊢
  exact alGet_put_isSome _ _ _ _ h

theorem cInputs_ok (ops : List Outpoint) :
    ∀ (s : Sess) (v : CoinView) (del : Bool),
      (∀ op ∈ ops, (v.getOutput op).isSome = true) →
      ∃ s2, s.cInputs v del ops = Except.ok s2 := by
  induction ops with
  | nil => intro s v del _; exact ⟨s, rfl⟩
  | cons op rest ih =>
    intro s v del h
    have h0 := h op (List.mem_cons_self _ _)
    cases ho : v.getOutput op with
    | none => rw [ho] at h0; cases h0
    | some o =>
      obtain ⟨s2, hs2⟩ := ih
        (match o.addr with
         | none => s
         | some a =>
           if del then s.del (Key.C a op.hash op.index)
           else s.put (Key.C a op.hash op.index) Val.emptyV)
        v del (fun op2 hm => h op2 (List.mem_cons_of_mem _ hm))
      exact ⟨s2, by unfold Sess.cInputs; rw [ho]; exact hs2⟩

theorem unindexTX_ok (s : Sess) (tx : TX) (v : CoinView)
    (h : tx.cb = true ∨ ∀ op ∈ tx.inputs, (v.getOutput op).isSome = true) :
    ∃ s2, s.unindexTX tx v = Except.ok s2 := by
  by_cases hia : (!s.db.opts.indexAddress) = true
  · exact ⟨_, by unfold Sess.unindexTX; rw [if_pos hia]⟩
  · by_cases hcb : tx.cb = true
    · exact ⟨_, by
        unfold Sess.unindexTX
        rw [if_neg hia, if_pos hcb]
        rfl⟩
    · have hops : ∀ op ∈ tx.inputs, (v.getOutput op).isSome = true := by
        rcases h with hc | hops
        · exact absurd hc hcb
        · exact hops
      obtain ⟨s2, hs2⟩ := cInputs_ok tx.inputs (s.unindexMeta tx v) v false hops
      exact ⟨_, by
        unfold Sess.unindexTX
        rw [if_neg hia, if_neg hcb, hs2]
        rfl⟩

theorem discInputs_ok (ops : List Outpoint) :
    ∀ (v : CoinView) (st : ChainState) (undo : List CoinEntry),
      ops.length ≤ undo.length →
      ∃ out, discInputs v st undo ops = Except.ok out ∧
        out.2.2.length = undo.length - ops.length ∧
        (∀ op, (v.getOutput op).isSome = true → (out.1.getOutput op).isSome = true) ∧
        (∀ op ∈ ops, (out.1.getOutput op).isSome = true) := by
  induction ops with
  | nil =>
    intro v st undo _
    exact ⟨(v, st, undo), by simp [discInputs], by simp, fun op h => h,
      by intro op h; cases h⟩
  | cons op rest ih =>
    intro v st undo h
    cases undo with
    | nil => simp at h
    | cons ce ud =>
      have hget : (v.addEntry op ce).getOutput op = some ce.output :=
        getOutput_addEntry_self v op ce
      obtain ⟨out, hout, hlen, hpres, hmem⟩ :=
        ih (v.addEntry op ce) (disconnectInput st ce.output) ud
          (Nat.le_of_succ_le_succ h)
      refine ⟨out, ?_, ?_, ?_, ?_⟩
      · simp only [discInputs, hget]
        exact hout
      · simpa [Nat.succ_sub_succ] using hlen
      · intro op2 h2
        exact hpres op2 (getOutput_isSome_addEntry v op op2 ce h2)
      · intro op2 h2
        rcases List.mem_cons.mp h2 with hh | hh
        · subst hh
          exact hpres op2 (by rw [hget]; rfl)
        · exact hmem op2 hh

/-- The per-item weight of the undo stream: inputs of non-coinbase
(index > 0) transactions. -/
def nonCbWeight (pr : Nat × TX) : Nat := if pr.1 = 0 then 0 else pr.2.inputs.length

theorem discTx_ok (s : Sess) (v : CoinView) (undo : List CoinEntry) (en : Entry)
    (i : Nat) (tx : TX)
    (hcb : i = 0 → tx.cb = true)
    (hlen : nonCbWeight (i, tx) ≤ undo.length) :
    ∃ out, s.discTx v undo en i tx = Except.ok out ∧
      out.2.2.length = undo.length - nonCbWeight (i, tx) := by
  by_cases hi : i = 0
  · subst hi
    obtain ⟨s2, hs2⟩ := unindexTX_ok
      (s.setPending ((tx.outputs.reverse).foldl disconnectOutput s.bt.pending))
      tx (({ v with bits := bitsUndo tx ++ v.bits }).removeTX tx en.height)
      (Or.inl (hcb rfl))
    refine ⟨(s2, ({ v with bits := bitsUndo tx ++ v.bits }).removeTX tx en.height, undo),
      ?_, by simp [nonCbWeight]⟩
    simp [Sess.discTx, hs2, -List.foldl_reverse]
  · have hw : nonCbWeight (i, tx) = tx.inputs.length := by simp [nonCbWeight, hi]
    rw [hw] at hlen
    obtain ⟨out0, hout0, hlen0, hpres0, hmem0⟩ :=
      discInputs_ok tx.inputs.reverse v s.bt.pending undo
        (by simpa using hlen)
    obtain ⟨s2, hs2⟩ := unindexTX_ok
      (s.setPending ((tx.outputs.reverse).foldl disconnectOutput out0.2.1))
      tx (out0.1.removeTX tx en.height)
      (Or.inr (by
        intro op hop
        exact getOutput_isSome_removeTX _ _ _ _
          (hmem0 op (List.mem_reverse.mpr hop))))
    refine ⟨(s2, out0.1.removeTX tx en.height, out0.2.2), ?_, ?_⟩
    · simp [Sess.discTx, hi, hout0, hs2, -List.foldl_reverse]
    · rw [hw, hlen0]
      simp

theorem discLoop_ok (en : Entry) (items : List (Nat × TX)) :
    ∀ (s : Sess) (v : CoinView) (undo : List CoinEntry),
      (∀ pr ∈ items, pr.1 = 0 → pr.2.cb = true) →
      undo.length = (items.map nonCbWeight).sum →
      ∃ out, s.discLoop v undo en items = Except.ok out ∧ out.2.2 = [] := by
  induction items with
  | nil =>
    intro s v undo _ hlen
    simp at hlen
    exact ⟨(s, v, undo), by simp [Sess.discLoop], hlen⟩
  | cons pr rest ih =>
    intro s v undo hcb hlen
    rcases pr with ⟨i, tx⟩
    obtain ⟨out, hout, houtlen⟩ := discTx_ok s v undo en i tx
      (hcb (i, tx) (List.mem_cons_self _ _))
      (by rw [hlen]; simp [List.map_cons, List.sum_cons])
    obtain ⟨out2, hout2, hnil⟩ := ih out.1 out.2.1 out.2.2
      (fun pr2 hm h0 => hcb pr2 (List.mem_cons_of_mem _ hm) h0)
      (by rw [houtlen, hlen]; simp [List.map_cons, List.sum_cons])
    refine ⟨out2, ?_, hnil⟩
    simp only [Sess.discLoop, hout]
    exact hout2

/-- C4: for every block whose undo record contains exactly one undo coin
per input of its non-coinbase transactions, `disconnectBlock` consumes the
undo stream completely and the final "Undo coins data inconsistency"
assertion never fires — the call returns successfully.  (The coinbase flag
hypothesis makes transaction 0 a real coinbase, as in any wellformed
block.) -/
theorem claim_C4_undo_consistency (s : Sess) (en : Entry) (b : Block)
    (hspv : s.db.opts.spv = false)
    (hcb : ∀ pr ∈ enumL 0 b.txs, pr.1 = 0 → pr.2.cb = true)
    (hcount : (s.db.getUndoCoins b.bhash).length =
      ((enumL 0 b.txs).map nonCbWeight).sum) :
    ∃ out, s.disconnectBlock en b = Except.ok out := by
  obtain ⟨out, hloop, hnil⟩ := discLoop_ok en ((enumL 0 b.txs).reverse)
    (s.setPending (s.bt.pending.disconnect b)) {} (s.db.getUndoCoins b.bhash)
    (fun pr hm h0 => hcb pr (List.mem_reverse.mp hm) h0)
    (by rw [hcount, List.map_reverse, List.sum_reverse])
  exact ⟨_, by
    simp only [Sess.disconnectBlock, hspv, Bool.false_eq_true, if_false, hloop, hnil]
    rfl⟩

/-- The block and database for the C4 witness: a coinbase plus one
spending transaction, with a one-coin undo record. -/
def exCoin4 : CoinEntry :=
  { output := { value := 9, covenant := { ctype := CovType.NONE } }, height := 1 }

def exBlock4 : Block :=
  { bhash := 70,
    txs := [{ txid := 91, inputs := [], outputs := [], cb := true },
            { txid := 92, inputs := [⟨50, 0⟩], outputs := [], cb := false }] }

def exEntry4 : Entry := { hash := 70, height := 2, prevBlock := 60, treeRoot := 0 }

def exDb4 : ChainDB := { blobUndo := [(70, [exCoin4])], state := { tip := 70 } }

/-- Witness for C4 at the concrete block. -/
theorem claim_C4_witness :
    ∃ out, (exDb4.startSess).disconnectBlock exEntry4 exBlock4 = Except.ok out :=
  claim_C4_undo_consistency (exDb4.startSess) exEntry4 exBlock4 rfl
    (by decide) (by decide)

/-! ## Claim C1 — the save/disconnect round trip

The remainder of the file analyses `save(e, b, v)` followed by
`disconnect(e, b)`.  The counter accounting is handled through an additive
delta abstraction; the coin view built by the caller is characterised
through `buildViewCoins`. -/

/-- An additive delta on the four chain-state counters. -/
structure CDelta where
  dtx : Int := 0
  dcoin : Int := 0
  dvalue : Int := 0
  dburned : Int := 0
deriving DecidableEq, Repr

def CDelta.negD (a : CDelta) : CDelta := ⟨-a.dtx, -a.dcoin, -a.dvalue, -a.dburned⟩

/-- Apply a counter delta; the tip and the committed flag are untouched. -/
def ChainState.applyD (st : ChainState) (d : CDelta) : ChainState :=
  { st with
    tx := st.tx + d.dtx,
    coin := st.coin + d.dcoin,
    value := st.value + d.dvalue,
    burned := st.burned + d.dburned }

theorem applyD_neg_cancel (st : ChainState) (d : CDelta) :
    (st.applyD d).applyD d.negD = st := by
  simp [ChainState.applyD, CDelta.negD]

theorem enumL_append {α : Type} (a : List α) :
    ∀ (i : Nat) (b : List α), enumL i (a ++ b) = enumL i a ++ enumL (i + a.length) b := by
  induction a with
  | nil => intro i b; simp [enumL]
  | cons x rest ih =>
    intro i b
    simp only [List.cons_append, enumL, ih (i + 1), List.length_cons, List.cons.injEq,
      true_and]
    have hsum : i + 1 + rest.length = i + (rest.length + 1) := by omega
    rw [← hsum]
    exact ih (i + 1) b

theorem enumL_mem_ge {α : Type} : ∀ (l : List α) (i : Nat) (pr : Nat × α),
    pr ∈ enumL i l → i ≤ pr.1 := by
  intro l
  induction l with
  | nil => intro i pr h; cases h
  | cons x rest ih =>
    intro i pr h
    rcases List.mem_cons.mp h with hh | hh
    · subst hh; exact Nat.le_refl _
    · exact Nat.le_of_succ_le (ih (i + 1) pr hh)

/-- All inputs of a list of transactions, in block order. -/
def allInputs (txs : List TX) : List Outpoint :=
  (txs.map (fun tx => tx.inputs)).flatten

theorem allInputs_nil : allInputs [] = [] := rfl

/-- The key families named by the round-trip claim together with the other
non-index tables; only the optional `t`/`T`/`C` index tables are
excluded. -/
def mainKey : Key → Bool
  | Key.t _ => false
  | Key.T _ _ => false
  | Key.C _ _ _ => false
  | _ => true

theorem alGet_put_main {kv : KV} {k k2 : Key} {v : Val}
    (hk : mainKey k = true) (hk2 : mainKey k2 = false) :
    alGet (alPut kv k2 v) k = alGet kv k := by
  rw [alGet_put, if_neg]
  intro h
  subst h
  rw [hk] at hk2
  cases hk2

theorem alGet_del_main {kv : KV} {k k2 : Key}
    (hk : mainKey k = true) (hk2 : mainKey k2 = false) :
    alGet (alDel kv k2) k = alGet kv k := by
  rw [alGet_del, if_neg]
  intro h
  subst h
  rw [hk] at hk2
  cases hk2

/-! ### Characterizing `addTX` / `removeTX` / `spendOps` -/

theorem setPending_db (s : Sess) (st : ChainState) : (s.setPending st).db = s.db := rfl

theorem alGet_none_of_not_mem {α β : Type} [DecidableEq α] :
    ∀ (l : List (α × β)) (k : α), k ∉ l.map Prod.fst → alGet l k = none := by
  intro l
  induction l with
  | nil => intro k _; rfl
  | cons p rest ih =>
    intro k hk
    obtain ⟨a, b⟩ := p
    rw [List.map_cons] at hk
    show (if a = k then some b else alGet rest k) = none
    rw [if_neg (fun he => hk (by rw [← he]; exact List.mem_cons_self _ _)),
      ih k (fun hc => hk (List.mem_cons_of_mem _ hc))]

end ChainDBSpec

